import Mathlib

/-!
Verification of the deterministic text-processing core of the RAG-AGENT
repository: the text cleaner (`src/DAY_1/text_cleaner.py`), the FAQ matcher
(`src/DAY_1/faq_finder.py`) and the chunker (`src/DAY_2/chunking_utility.py`).

Strings are modelled as `List Char`.  Python string primitives used by the
code (`str.lower`, `str.strip`, `str.split`, `re.sub` with the two fixed
patterns, `re.split` with the sentence pattern, slicing, `' '.join`) are
embedded character by character below.  Python floats that carry Jaccard
scores are modelled as rationals; every score the code computes is a ratio
of small set cardinalities, so this is exact.
-/

abbrev Str := List Char

/-- Python whitespace (the set matched by `\s` in `re` on `str` and stripped
by `str.strip()` / split on by `str.split()`). -/
def isSpacePy (c : Char) : Bool :=
  decide (c ∈ ([' ', '\t', '\n', '\r', '\x0b', '\x0c', '\x1c', '\x1d', '\x1e', '\x1f',
    '\x85', '\xa0', ' ', ' ', ' ', ' ', ' ',
    ' ', ' ', ' ', ' ', ' ', ' ', ' ',
    ' ', ' ', ' ', ' ', '　'] : List Char))

/-- `str.lower` on the ASCII range (the only range whose image can survive
the cleaner's `[^a-z0-9\s]` filter). -/
def lowerPy (c : Char) : Char :=
  if 'A' ≤ c ∧ c ≤ 'Z' then Char.ofNat (c.toNat + 32) else c

/-- `str.strip()`: remove leading and trailing whitespace. -/
def stripPy (s : Str) : Str :=
  List.rdropWhile isSpacePy (s.dropWhile isSpacePy)

/-- Scanner for `re.sub(r'\s+', ' ', s)`: `inRun` records whether the scanner
is inside a whitespace run whose single replacement space was already
emitted. -/
def collapseWSAux (inRun : Bool) : Str → Str
  | [] => []
  | c :: rest =>
    if isSpacePy c then
      if inRun then collapseWSAux true rest
      else ' ' :: collapseWSAux true rest
    else c :: collapseWSAux false rest

/-- `re.sub(r'\s+', ' ', s)`: replace every maximal whitespace run by one
space. -/
def collapseWS (s : Str) : Str :=
  collapseWSAux false s

/-- The characters kept by `re.sub(r'[^a-z0-9\s]', '', s)`. -/
def isKept (c : Char) : Bool :=
  ('a' ≤ c && c ≤ 'z') || ('0' ≤ c && c ≤ '9') || isSpacePy c

/-- `TextCleaner.clean_text` (src/DAY_1/text_cleaner.py, lines 42-76):
lowercase, strip, drop every char not in `[a-z0-9\s]`, collapse whitespace
runs to single spaces — in exactly that order. -/
def clean_text (text : Str) : Str :=
  collapseWS ((stripPy (text.map lowerPy)).filter isKept)

example : clean_text ("  Hello, World!!!  ").data = ("hello world").data := by decide

example : clean_text ("! a").data = (" a").data := by decide

/-- No two adjacent whitespace characters. -/
def noWSPair (a b : Char) : Prop := ¬(isSpacePy a = true ∧ isSpacePy b = true)

lemma collapseWSAux_cons_ws {b : Bool} {d : Char} {rest : Str} (hd : isSpacePy d = true) :
    collapseWSAux b (d :: rest) =
      (if b then collapseWSAux true rest else ' ' :: collapseWSAux true rest) := by
  simp [collapseWSAux, hd]

lemma collapseWSAux_cons_not_ws {b : Bool} {d : Char} {rest : Str}
    (hd : isSpacePy d = false) :
    collapseWSAux b (d :: rest) = d :: collapseWSAux false rest := by
  simp [collapseWSAux, hd]

lemma collapseWSAux_mem {b : Bool} {l : Str} {c : Char} (h : c ∈ collapseWSAux b l) :
    c = ' ' ∨ (c ∈ l ∧ isSpacePy c = false) := by
  induction l generalizing b with
  | nil => simp [collapseWSAux] at h
  | cons d rest ih =>
    by_cases hd : isSpacePy d
    · rw [collapseWSAux_cons_ws hd] at h
      cases b with
      | true =>
        simp only [if_true] at h
        rcases ih h with h1 | ⟨h1, h2⟩
        · exact Or.inl h1
        · exact Or.inr ⟨List.mem_cons_of_mem _ h1, h2⟩
      | false =>
        simp only [Bool.false_eq_true, if_false, List.mem_cons] at h
        rcases h with rfl | h
        · exact Or.inl rfl
        · rcases ih h with h1 | ⟨h1, h2⟩
          · exact Or.inl h1
          · exact Or.inr ⟨List.mem_cons_of_mem _ h1, h2⟩
    · rw [collapseWSAux_cons_not_ws (by simpa using hd)] at h
      rcases List.mem_cons.mp h with rfl | h
      · exact Or.inr ⟨List.mem_cons_self _ _, by simpa using hd⟩
      · rcases ih h with h1 | ⟨h1, h2⟩
        · exact Or.inl h1
        · exact Or.inr ⟨List.mem_cons_of_mem _ h1, h2⟩

lemma collapseWSAux_true_head {l : Str} {x : Char}
    (h : (collapseWSAux true l).head? = some x) : isSpacePy x = false := by
  induction l with
  | nil => simp [collapseWSAux] at h
  | cons d rest ih =>
    by_cases hd : isSpacePy d
    · rw [collapseWSAux_cons_ws hd, if_pos rfl] at h
      exact ih h
    · rw [collapseWSAux_cons_not_ws (by simpa using hd)] at h
      simp only [List.head?_cons, Option.some_inj] at h
      subst h
      simpa using hd

lemma collapseWSAux_chain (b : Bool) (l : Str) :
    List.Chain' noWSPair (collapseWSAux b l) := by
  induction l generalizing b with
  | nil => simp [collapseWSAux]
  | cons d rest ih =>
    by_cases hd : isSpacePy d
    · rw [collapseWSAux_cons_ws hd]
      cases b with
      | true => simpa using ih true
      | false =>
        simp only [Bool.false_eq_true, if_false]
        rw [List.chain'_cons']
        refine ⟨?_, ih true⟩
        intro y hy hpair
        exact absurd (collapseWSAux_true_head hy) (by simp [hpair.2])
    · rw [collapseWSAux_cons_not_ws (by simpa using hd)]
      rw [List.chain'_cons']
      refine ⟨?_, ih false⟩
      intro y _ hpair
      exact hd (by simp [hpair.1])

lemma collapseWSAux_true_eq {l : Str}
    (h : ∀ x, l.head? = some x → isSpacePy x = false) :
    collapseWSAux true l = collapseWSAux false l := by
  cases l with
  | nil => rfl
  | cons d rest =>
    have hd : isSpacePy d = false := h d rfl
    rw [collapseWSAux_cons_not_ws hd, collapseWSAux_cons_not_ws hd]

lemma collapseWS_eq_self {l : Str} (h1 : ∀ c ∈ l, isSpacePy c = true → c = ' ')
    (h2 : List.Chain' noWSPair l) : collapseWS l = l := by
  unfold collapseWS
  induction l with
  | nil => rfl
  | cons d rest ih =>
    have hrest : collapseWSAux false rest = rest :=
      ih (fun c hc => h1 c (List.mem_cons_of_mem _ hc)) h2.tail
    by_cases hd : isSpacePy d
    · have hd' : d = ' ' := h1 d (List.mem_cons_self _ _) hd
      have hhead : ∀ x, rest.head? = some x → isSpacePy x = false := by
        intro x hx
        cases rest with
        | nil => simp at hx
        | cons e t =>
          simp only [List.head?_cons, Option.some_inj] at hx
          rcases List.chain'_cons'.mp h2 with ⟨hrel, _⟩
          by_contra hws
          refine hrel e rfl ⟨hd, ?_⟩
          rw [hx]
          simpa using hws
      rw [collapseWSAux_cons_ws hd]
      simp only [Bool.false_eq_true, if_false]
      rw [collapseWSAux_true_eq hhead, hrest, hd']
    · rw [collapseWSAux_cons_not_ws (by simpa using hd)]
      rw [hrest]

lemma mem_stripPy {l : Str} {c : Char} (h : c ∈ stripPy l) : c ∈ l := by
  unfold stripPy at h
  have hpre := List.rdropWhile_prefix isSpacePy (l.dropWhile isSpacePy)
  exact (List.dropWhile_suffix isSpacePy).subset ( List.IsPrefix.subset hpre h)

lemma stripPy_chain {l : Str} (h : List.Chain' noWSPair l) :
    List.Chain' noWSPair (stripPy l) :=
  List.Chain'.prefix (List.Chain'.suffix h (List.dropWhile_suffix isSpacePy))
    (List.rdropWhile_prefix isSpacePy (l.dropWhile isSpacePy))

lemma dropWhile_eq_self_of_head {p : Char → Bool} {l : Str}
    (h : ∀ x, l.head? = some x → p x = false) : l.dropWhile p = l := by
  cases l with
  | nil => rfl
  | cons d rest => simp [List.dropWhile_cons, h d rfl]

lemma stripPy_head {l : Str} {x : Char} (h : (stripPy l).head? = some x) :
    isSpacePy x = false := by
  have hpre : stripPy l <+: l.dropWhile isSpacePy :=
    List.rdropWhile_prefix isSpacePy (l.dropWhile isSpacePy)
  have hhd : (l.dropWhile isSpacePy).head? = some x := by
    rcases hpre with ⟨u, hu⟩
    cases hsl : stripPy l with
    | nil => rw [hsl] at h; cases h
    | cons y t =>
      rw [hsl] at h hu
      simp only [List.head?_cons, Option.some_inj] at h
      subst h
      rw [← hu]
      rfl
  have hnot := List.head?_dropWhile_not isSpacePy l
  rw [hhd] at hnot
  exact hnot

lemma stripPy_idem (l : Str) : stripPy (stripPy l) = stripPy l := by
  have h1 : (stripPy l).dropWhile isSpacePy = stripPy l :=
    dropWhile_eq_self_of_head (fun x hx => stripPy_head hx)
  show List.rdropWhile isSpacePy ((stripPy l).dropWhile isSpacePy) = stripPy l
  rw [h1]
  unfold stripPy
  exact List.rdropWhile_idempotent _ _

lemma clean_text_mem {s : Str} {c : Char} (h : c ∈ clean_text s) :
    ('a' ≤ c ∧ c ≤ 'z') ∨ ('0' ≤ c ∧ c ≤ '9') ∨ c = ' ' := by
  unfold clean_text at h
  rcases collapseWSAux_mem h with h1 | ⟨h1, h2⟩
  · exact Or.inr (Or.inr h1)
  · have hk : isKept c = true := (List.mem_filter.mp h1).2
    simp only [isKept, Bool.or_eq_true, Bool.and_eq_true, decide_eq_true_eq] at hk
    rcases hk with (hk | hk) | hk
    · exact Or.inl hk
    · exact Or.inr (Or.inl hk)
    · rw [hk] at h2
      exact absurd h2 (by decide)

lemma clean_text_chain (s : Str) : List.Chain' noWSPair (clean_text s) :=
  collapseWSAux_chain false _

lemma ws_eq_space {c : Char} (hws : isSpacePy c = true)
    (hcs : ('a' ≤ c ∧ c ≤ 'z') ∨ ('0' ≤ c ∧ c ≤ '9') ∨ c = ' ') : c = ' ' := by
  rcases hcs with ⟨h1, h2⟩ | ⟨h1, h2⟩ | h1
  · exfalso
    simp only [isSpacePy, List.mem_cons, List.not_mem_nil, or_false, decide_eq_true_eq] at hws
    rcases hws with rfl|rfl|rfl|rfl|rfl|rfl|rfl|rfl|rfl|rfl|rfl|rfl|rfl|rfl|rfl|rfl|rfl|rfl|rfl|rfl|rfl|rfl|rfl|rfl|rfl|rfl|rfl|rfl|rfl <;>
      first
        | exact absurd h1 (by decide)
        | exact absurd h2 (by decide)
  · exfalso
    simp only [isSpacePy, List.mem_cons, List.not_mem_nil, or_false, decide_eq_true_eq] at hws
    rcases hws with rfl|rfl|rfl|rfl|rfl|rfl|rfl|rfl|rfl|rfl|rfl|rfl|rfl|rfl|rfl|rfl|rfl|rfl|rfl|rfl|rfl|rfl|rfl|rfl|rfl|rfl|rfl|rfl|rfl <;>
      first
        | exact absurd h1 (by decide)
        | exact absurd h2 (by decide)
  · exact h1

lemma lowerPy_eq_self {c : Char}
    (hcs : ('a' ≤ c ∧ c ≤ 'z') ∨ ('0' ≤ c ∧ c ≤ '9') ∨ c = ' ') : lowerPy c = c := by
  unfold lowerPy
  rw [if_neg]
  rintro ⟨hA, hZ⟩
  rcases hcs with ⟨h1, _⟩ | ⟨_, h2⟩ | h1
  · exact absurd (le_trans h1 hZ) (by decide)
  · exact absurd (le_trans hA h2) (by decide)
  · rw [h1] at hA
    exact absurd hA (by decide)

lemma isKept_of_charset {c : Char}
    (hcs : ('a' ≤ c ∧ c ≤ 'z') ∨ ('0' ≤ c ∧ c ≤ '9') ∨ c = ' ') : isKept c = true := by
  simp only [isKept, Bool.or_eq_true, Bool.and_eq_true, decide_eq_true_eq]
  rcases hcs with hk | hk | rfl
  · exact Or.inl (Or.inl hk)
  · exact Or.inl (Or.inr hk)
  · exact Or.inr (by decide)

lemma clean_text_eq_strip_of_canonical {t : Str}
    (hmem : ∀ c ∈ t, ('a' ≤ c ∧ c ≤ 'z') ∨ ('0' ≤ c ∧ c ≤ '9') ∨ c = ' ')
    (hch : List.Chain' noWSPair t) : clean_text t = stripPy t := by
  unfold clean_text
  have hlow : t.map lowerPy = t := by
    rw [List.map_congr_left (fun c hc => lowerPy_eq_self (hmem c hc))]
    exact List.map_id t
  rw [hlow]
  have hfil : (stripPy t).filter isKept = stripPy t :=
    List.filter_eq_self.mpr (fun c hc => isKept_of_charset (hmem c (mem_stripPy hc)))
  rw [hfil]
  exact collapseWS_eq_self
    (fun c hc hws => ws_eq_space hws (hmem c (mem_stripPy hc)))
    (stripPy_chain hch)


/-- C2 counterexample: `clean_text` is not idempotent.  On `"! a"` the strip
step runs before punctuation removal, so one pass leaves a leading space
that a second pass removes. -/
theorem clean_text_not_idem :
    clean_text (clean_text (("! a").data)) ≠ clean_text (("! a").data) := by decide

/-- C2 (amended): one application of `clean_text` is idempotent only up to a
final strip: `clean_text (clean_text s) = stripPy (clean_text s)`, and from
the second application on the function is idempotent. -/
theorem clean_text_idem_from_second (s : Str) :
    clean_text (clean_text s) = stripPy (clean_text s)
    ∧ clean_text (clean_text (clean_text s)) = clean_text (clean_text s) := by
  have h1 : clean_text (clean_text s) = stripPy (clean_text s) :=
    clean_text_eq_strip_of_canonical (fun c hc => clean_text_mem hc) (clean_text_chain s)
  refine ⟨h1, ?_⟩
  rw [h1]
  have h2 : clean_text (stripPy (clean_text s)) = stripPy (stripPy (clean_text s)) :=
    clean_text_eq_strip_of_canonical (fun c hc => clean_text_mem (mem_stripPy hc))
      (stripPy_chain (clean_text_chain s))
  rw [h2, stripPy_idem]

/-- C3 counterexample: `clean_text ("! a") = " a"` keeps a leading space,
refuting "no leading or trailing space". -/
theorem clean_text_leading_space :
    clean_text (("! a").data) = (" a").data
    ∧ (clean_text (("! a").data)).head? = some ' ' := by decide

/-- C3 (amended): every character of `clean_text s` is a lowercase ASCII
letter, a digit, or a space, and no two spaces are adjacent; but a single
leading and trailing space may remain. -/
theorem clean_text_charset (s : Str) :
    (∀ c ∈ clean_text s, ('a' ≤ c ∧ c ≤ 'z') ∨ ('0' ≤ c ∧ c ≤ '9') ∨ c = ' ')
    ∧ List.Chain' (fun a b => ¬(a = ' ' ∧ b = ' ')) (clean_text s) := by
  refine ⟨fun c hc => clean_text_mem hc, ?_⟩
  refine (clean_text_chain s).imp ?_
  intro a b hab ⟨ha, hb⟩
  exact hab ⟨by rw [ha]; decide, by rw [hb]; decide⟩

/-- C3 witness: the amended charset theorem applied at a concrete input. -/
theorem clean_text_charset_witness :
    ('a' ≤ 'a' ∧ 'a' ≤ 'z') ∨ ('0' ≤ 'a' ∧ 'a' ≤ '9') ∨ 'a' = ' ' :=
  (clean_text_charset (("a!").data)).1 'a' (by decide)

/-- `str.split()` scanner: split on whitespace runs, dropping empty pieces.
`cur` holds the current word reversed. -/
def pySplitAux (cur : Str) : Str → List Str
  | [] => if cur = [] then [] else [cur.reverse]
  | c :: rest =>
    if isSpacePy c then
      if cur = [] then pySplitAux [] rest
      else cur.reverse :: pySplitAux [] rest
    else pySplitAux (c :: cur) rest

/-- `str.split()` with no arguments. -/
def pySplit (s : Str) : List Str := pySplitAux [] s

/-- `' '.join(words)`. -/
def joinSp : List Str → Str
  | [] => []
  | [w] => w
  | w :: x :: ws => w ++ ' ' :: joinSp (x :: ws)

example : pySplit (("  hello   world ").data) = [("hello").data, ("world").data] := by decide

example : joinSp [("ab").data, ("c").data] = ("ab c").data := by decide

/-- `FAQFinder.stop_words` (src/DAY_1/faq_finder.py, lines 66-70). -/
def stop_words : Finset Str :=
  ((["a", "an", "the", "is", "are", "am", "be", "to", "of", "in",
     "on", "at", "for", "with", "do", "does", "i", "you", "we",
     "they", "there", "can", "will", "it", "what", "how", "when", "where"]).map
    String.data).toFinset

/-- `FAQFinder.synonyms` (src/DAY_1/faq_finder.py, lines 73-86). -/
def synonyms : List (Str × List Str) :=
  ([("sign", ["register", "signup", "join", "enroll"]),
    ("register", ["sign", "signup", "join", "enroll"]),
    ("signup", ["sign", "register", "join", "enroll"]),
    ("pay", ["fee", "cost", "price", "money", "charge"]),
    ("fee", ["pay", "cost", "price", "money", "charge"]),
    ("cost", ["pay", "fee", "price", "money", "charge"]),
    ("start", ["schedule", "time", "begin", "when"]),
    ("time", ["schedule", "start", "when"]),
    ("when", ["time", "schedule", "start"]),
    ("where", ["venue", "location", "place"]),
    ("venue", ["where", "location", "place"]),
    ("location", ["where", "venue", "place"])] :
      List (String × List String)).map (fun p => (p.1.data, p.2.map String.data))

/-- `self.synonyms[word]` when present, else nothing to add. -/
def synLookup (w : Str) : List Str :=
  match synonyms.find? (fun p => p.1 == w) with
  | some p => p.2
  | none => []

/-- `FAQFinder.expand_with_synonyms` (src/DAY_1/faq_finder.py, lines 134-146):
the set unioned with every synonym list keyed by a member. -/
def expand_with_synonyms (words : Finset Str) : Finset Str :=
  words ∪ words.biUnion (fun w => (synLookup w).toFinset)

/-- The token-set construction `find_answer` applies to the cleaned user
question (lines 180-187) and, identically, to each FAQ's cached cleaned
question (lines 195-199): subtract stop words, expand with synonyms, and
fall back to the raw token set when the result is empty. -/
def build_match_set (cleaned : Str) : Finset Str :=
  let raw := (pySplit cleaned).toFinset \ stop_words
  let expanded := expand_with_synonyms raw
  if expanded = ∅ then (pySplit cleaned).toFinset else expanded

/-- The guarded Jaccard score of lines 201-209: intersection size over union
size as an exact rational, 0.0 when the union is empty. -/
def jaccard (a b : Finset Str) : ℚ :=
  if 0 < (a ∪ b).card then Rat.divInt ((a ∩ b).card : ℤ) ((a ∪ b).card : ℤ) else 0

/-- One stored FAQ entry (the dict appended by `add_faq`). -/
structure FAQ where
  question : Str
  answer : Str
  question_clean : Str
  deriving DecidableEq

/-- The dict returned by `FAQFinder.find_answer`. -/
structure MatchResult where
  answer : Str
  confidence : ℚ
  matched_question : Option Str
  deriving DecidableEq

/-- The runtime error raised when Python subscripts `None`. -/
inductive PyError where
  | typeError
  deriving DecidableEq

instance {e a : Type} [DecidableEq e] [DecidableEq a] : DecidableEq (Except e a) := fun x y =>
  match x, y with
  | Except.error u, Except.error v =>
    if h : u = v then isTrue (by rw [h]) else isFalse (fun hc => h (by cases hc; rfl))
  | Except.ok u, Except.ok v =>
    if h : u = v then isTrue (by rw [h]) else isFalse (fun hc => h (by cases hc; rfl))
  | Except.error _, Except.ok _ => isFalse (fun hc => by cases hc)
  | Except.ok _, Except.error _ => isFalse (fun hc => by cases hc)

/-- `FAQFinder.add_faq` (src/DAY_1/faq_finder.py, lines 90-108). -/
def add_faq (faqs : List FAQ) (question answer : Str) : List FAQ :=
  faqs ++ [⟨question, answer, clean_text question⟩]

def no_faqs_answer : Str := ("❌ No FAQs loaded yet! Please add some FAQs first.").data

def no_match_answer : Str :=
  ("🤔 I couldn't find a good answer to that question. Could you rephrase it?").data

/-- The body of the best-match loop of lines 193-214: update the running
(best_match, best_score) pair when this FAQ scores strictly higher. -/
def match_step (user_words : Finset Str) (acc : Option FAQ × ℚ) (faq : FAQ) :
    Option FAQ × ℚ :=
  let faq_words := build_match_set faq.question_clean
  let score := jaccard user_words faq_words
  if acc.2 < score then (some faq, score) else acc

/-- The whole loop, started from (None, 0.0). -/
def best_of (user_words : Finset Str) (faqs : List FAQ) : Option FAQ × ℚ :=
  faqs.foldl (match_step user_words) (none, 0)

/-- `FAQFinder.find_answer` (src/DAY_1/faq_finder.py, lines 148-228).
The final `return` subscripts `best_match['answer']`; when `best_match` is
still `None` that raises a TypeError, modelled as `Except.error`. -/
def find_answer (faqs : List FAQ) (user_question : Str) (threshold : ℚ) :
    Except PyError MatchResult :=
  if faqs = [] then
    Except.ok ⟨no_faqs_answer, 0, none⟩
  else
    let b := best_of (build_match_set (clean_text user_question)) faqs
    if b.2 < threshold then
      Except.ok ⟨no_match_answer, b.2, none⟩
    else
      match b.1 with
      | none => Except.error PyError.typeError
      | some faq => Except.ok ⟨faq.answer, b.2, some faq.question⟩

lemma best_of_none {user_words : Finset Str} {faqs : List FAQ}
    (h : (best_of user_words faqs).1 = none) : (best_of user_words faqs).2 = 0 := by
  unfold best_of
  suffices H : ∀ (l : List FAQ) (acc : Option FAQ × ℚ), (acc.1 = none → acc.2 = 0) →
      ((l.foldl (match_step user_words) acc).1 = none →
        (l.foldl (match_step user_words) acc).2 = 0) by
    exact H faqs (none, 0) (fun _ => rfl) h
  intro l
  induction l with
  | nil => intro acc hacc; exact hacc
  | cons f fs ih =>
    intro acc hacc
    simp only [List.foldl_cons]
    refine ih (match_step user_words acc f) ?_
    unfold match_step
    by_cases hlt : acc.2 < jaccard user_words (build_match_set f.question_clean)
    · simp only [if_pos hlt]
      intro hc
      cases hc
    · simp only [if_neg hlt]
      exact hacc

/-- C1 counterexample: with a non-empty corpus sharing no tokens with the
query and `threshold = 0.0`, the best score 0.0 is not below the threshold,
so the code subscripts `best_match` while it is still `None` and raises a
TypeError instead of returning a result. -/
theorem find_answer_zero_threshold_raises :
    find_answer (add_faq [] (("apple").data) (("A").data)) (("zebra").data) 0 =
      Except.error PyError.typeError := by decide

/-- C1 (amended): for every corpus and query, and every strictly positive
threshold (the default 0.15 included), `find_answer` returns a `MatchResult`
and never raises; an empty corpus is reported through the result with
confidence 0.0 and no matched question. -/
theorem find_answer_total (faqs : List FAQ) (q : Str) (t : ℚ) (ht : 0 < t) :
    ∃ r : MatchResult, find_answer faqs q t = Except.ok r ∧
      (faqs = [] → r.confidence = 0 ∧ r.matched_question = none) := by
  cases faqs with
  | nil => exact ⟨⟨no_faqs_answer, 0, none⟩, rfl, fun _ => ⟨rfl, rfl⟩⟩
  | cons f fs =>
    unfold find_answer
    rw [if_neg (by simp)]
    set b := best_of (build_match_set (clean_text q)) (f :: fs) with hb
    by_cases hlt : b.2 < t
    · rw [if_pos hlt]
      exact ⟨⟨no_match_answer, b.2, none⟩, rfl, fun hc => by cases hc⟩
    · rw [if_neg hlt]
      cases hb1 : b.1 with
      | none =>
        exfalso
        have h0 : b.2 = 0 := by
          rw [hb] at hb1 ⊢
          exact best_of_none hb1
        rw [h0] at hlt
        exact hlt ht
      | some faq =>
        exact ⟨⟨faq.answer, b.2, some faq.question⟩, rfl, fun hc => by cases hc⟩

/-- C1 witness: the amended theorem applied at the empty corpus and the
default threshold 0.15. -/
theorem find_answer_total_witness :
    (0 : ℚ) < Rat.divInt 15 100 ∧
      ∃ r : MatchResult,
        find_answer [] (("anything").data) (Rat.divInt 15 100) = Except.ok r ∧
          (([] : List FAQ) = [] → r.confidence = 0 ∧ r.matched_question = none) :=
  ⟨by decide, find_answer_total [] (("anything").data) (Rat.divInt 15 100) (by decide)⟩

/-- The token-set pipeline in the order the spec states it: remove stop
words, fall back to the raw token set when the filtered set is empty, and
only then expand with synonyms. -/
def build_match_set_spec (cleaned : Str) : Finset Str :=
  let raw := (pySplit cleaned).toFinset \ stop_words
  let base := if raw = ∅ then (pySplit cleaned).toFinset else raw
  expand_with_synonyms base

lemma expand_with_synonyms_empty_iff (s : Finset Str) :
    expand_with_synonyms s = ∅ ↔ s = ∅ := by
  unfold expand_with_synonyms
  constructor
  · intro h
    rcases Finset.union_eq_empty.mp h with ⟨h1, _⟩
    exact h1
  · intro h
    subst h
    simp

/-- C7 counterexample: on the all-stop-word query `"when"` the code's query
set is the raw token set un-expanded, while the spec's order would expand
the fallback set; the two differ. -/
theorem build_match_set_ne_spec :
    build_match_set (clean_text (("when").data)) ≠
      build_match_set_spec (clean_text (("when").data)) := by decide

/-- C7 (amended): `find_answer` filters stop words, expands the filtered set
with synonyms, and falls back to the raw token set only when the expanded
(equivalently, the filtered) set is empty — the fallback set is used without
synonym expansion.  When the filtered set is non-empty the pipeline agrees
with the spec's stated order. -/
theorem build_match_set_characterization (cleaned : Str) :
    (build_match_set cleaned =
      (if (pySplit cleaned).toFinset \ stop_words = ∅ then (pySplit cleaned).toFinset
       else expand_with_synonyms ((pySplit cleaned).toFinset \ stop_words)))
    ∧ ((pySplit cleaned).toFinset \ stop_words ≠ ∅ →
        build_match_set cleaned = build_match_set_spec cleaned) := by
  constructor
  · unfold build_match_set
    by_cases h : (pySplit cleaned).toFinset \ stop_words = ∅
    · rw [if_pos h, if_pos ((expand_with_synonyms_empty_iff _).mpr h)]
    · rw [if_neg h,
        if_neg (fun hc => h ((expand_with_synonyms_empty_iff _).mp hc))]
  · intro h
    show (if expand_with_synonyms ((pySplit cleaned).toFinset \ stop_words) = ∅
        then (pySplit cleaned).toFinset
        else expand_with_synonyms ((pySplit cleaned).toFinset \ stop_words)) =
      expand_with_synonyms
        (if (pySplit cleaned).toFinset \ stop_words = ∅ then (pySplit cleaned).toFinset
         else (pySplit cleaned).toFinset \ stop_words)
    rw [if_neg (fun hc => h ((expand_with_synonyms_empty_iff _).mp hc)), if_neg h]

/-- C7 witness: the characterization applied to the cleaned query
`"sign up"`, whose filtered token set is non-empty. -/
theorem build_match_set_characterization_witness :
    (pySplit (clean_text (("sign up").data))).toFinset \ stop_words ≠ ∅ ∧
      build_match_set (clean_text (("sign up").data)) =
        build_match_set_spec (clean_text (("sign up").data)) :=
  ⟨by decide, (build_match_set_characterization (clean_text (("sign up").data))).2 (by decide)⟩

/-- C9: stop words re-enter the compared sets through synonym expansion and
change the score.  `"time"` expands to a set containing the stop word
`"when"`, as does the corpus question `"When does it start?"`; the Jaccard
score over the expanded sets differs from the score the same sets would give
with stop words removed after expansion, and `find_answer` returns exactly
the stop-word-inflated score 4/5 as the confidence. -/
theorem stop_words_reenter_via_synonyms :
    (("when").data ∈ stop_words
      ∧ ("when").data ∈ build_match_set (clean_text (("What time").data))
      ∧ ("when").data ∈ build_match_set (clean_text (("When does it start?").data)))
    ∧ jaccard (build_match_set (clean_text (("What time").data)))
        (build_match_set (clean_text (("When does it start?").data))) ≠
      jaccard (build_match_set (clean_text (("What time").data)) \ stop_words)
        (build_match_set (clean_text (("When does it start?").data)) \ stop_words)
    ∧ find_answer (add_faq [] (("When does it start?").data) (("At 9 AM").data))
        (("What time").data) (Rat.divInt 15 100) =
      Except.ok ⟨("At 9 AM").data, Rat.divInt 4 5, some (("When does it start?").data)⟩ := by
  decide

/-- The chunker's configuration.  `TextChunker.__init__`
(src/DAY_2/chunking_utility.py, lines 46-72) stores both parameters and
performs no validation of any kind. -/
structure TextChunker where
  chunk_size : Int
  overlap : Int
  deriving DecidableEq

/-- `TextChunker.__init__`: assigns the two attributes and returns. -/
def TextChunker.init (chunk_size overlap : Int) : TextChunker :=
  ⟨chunk_size, overlap⟩

/-- Normalize one Python slice index: negative indices count from the end,
and the result is clamped to `[0, n]`. -/
def pyIndex (n : Nat) (i : Int) : Nat :=
  min ((if i < 0 then (n : Int) + i else i).toNat) n

/-- Python slicing `xs[a:b]` with unit step. -/
def pySlice {α : Type} (xs : List α) (a b : Int) : List α :=
  (xs.take (pyIndex xs.length b)).drop (pyIndex xs.length a)

/-- Sentence terminators of the pattern `(?<=[.!?])\s+`. -/
def isTerm (c : Char) : Bool := decide (c = '.' ∨ c = '!' ∨ c = '?')

/-- Scanner for `re.split(r'(?<=[.!?])\s+', text)`: a fragment ends after a
terminator that is immediately followed by whitespace; the whitespace run is
consumed (`skip` is true while inside it).  `cur` holds the current fragment
reversed. -/
def sentSplitAux (skip : Bool) (cur : Str) : Str → List Str
  | [] => [cur.reverse]
  | c :: rest =>
    if skip ∧ isSpacePy c = true then sentSplitAux true cur rest
    else if isTerm c = true ∧ rest.head?.any isSpacePy = true then
      (cur.reverse ++ [c]) :: sentSplitAux true [] rest
    else sentSplitAux false (c :: cur) rest

/-- `TextChunker.split_into_sentences` (lines 74-99): regex split, then strip
each fragment and drop the empty ones. -/
def split_into_sentences (text : Str) : List Str :=
  ((sentSplitAux false [] text).map stripPy).filter (fun s => !s.isEmpty)

/-- `TextChunker.count_words` (lines 101-108): `len(text.split())`. -/
def count_words (text : Str) : Nat := (pySplit text).length

example :
    split_into_sentences (("Hi there. One two. ").data) =
      [("Hi there.").data, ("One two.").data] := by decide

/-- A chunk dict produced by `chunk_by_words`. -/
structure WChunk where
  chunk_id : Nat
  text : Str
  start_word : Int
  end_word : Int
  word_count : Nat
  method : Str
  deriving DecidableEq

/-- A chunk dict produced by `chunk_by_sentences`. -/
structure SChunk where
  chunk_id : Nat
  text : Str
  sentence_count : Nat
  word_count : Nat
  method : Str
  deriving DecidableEq

/-- The `while start < len(words)` loop of `chunk_by_words` (lines 126-158).
The loop either breaks or strictly increases the integer `start` on every
pass while `start < len(words)`, so it runs at most `len(words)` passes from
`start = 0`; the fuel `len(words) + 1` supplied by `chunk_by_words` is
therefore never exhausted and the 0-fuel branch is unreachable. -/
def chunkByWordsLoop (cs ov : Int) (words : List Str) :
    Nat → Nat → Int → List WChunk
  | 0, _, _ => []
  | fuel + 1, cid, start =>
    if start < (words.length : Int) then
      let e : Int := min (start + cs) (words.length : Int)
      let cw : List Str := pySlice words start e
      let ch : WChunk := ⟨cid, joinSp cw, start, e, cw.length, ("word-based").data⟩
      let ns : Int := e - ov
      if ns ≤ start then [ch]
      else ch :: chunkByWordsLoop cs ov words fuel (cid + 1) ns
    else []

/-- `TextChunker.chunk_by_words` (lines 110-158). -/
def TextChunker.chunk_by_words (self : TextChunker) (text : Str) : List WChunk :=
  let words := pySplit text
  chunkByWordsLoop self.chunk_size self.overlap words (words.length + 1) 0 0

/-- The sentence-accumulating loop of `chunk_by_sentences` (lines 178-217),
including the final flush of a non-empty accumulator. -/
def chunkBySentLoop (cs : Int) : List Str → List Str → Nat → Nat → List SChunk
  | [], current, count, cid =>
    if current = [] then []
    else [⟨cid, joinSp current, current.length, count, ("sentence-based").data⟩]
  | s :: rest, current, count, cid =>
    let swc := count_words s
    if cs < ((count + swc : Nat) : Int) ∧ current ≠ [] then
      let ov := if 2 ≤ current.length then current.drop (current.length - 2) else current
      ⟨cid, joinSp current, current.length, count, ("sentence-based").data⟩ ::
        chunkBySentLoop cs rest (ov ++ [s]) ((ov.map count_words).sum + swc) (cid + 1)
    else chunkBySentLoop cs rest (current ++ [s]) (count + swc) cid

/-- `TextChunker.chunk_by_sentences` (lines 160-219). -/
def TextChunker.chunk_by_sentences (self : TextChunker) (text : Str) : List SChunk :=
  chunkBySentLoop self.chunk_size (split_into_sentences text) [] 0 0

/-- A chunk dict of either method, as fed to `get_chunk_stats`. -/
inductive Chunk where
  | word (c : WChunk)
  | sent (c : SChunk)
  deriving DecidableEq

def Chunk.word_count : Chunk → Nat
  | word c => c.word_count
  | sent c => c.word_count

def Chunk.method : Chunk → Str
  | word c => c.method
  | sent c => c.method

/-- The value returned by `get_chunk_stats`: either the error dict
`{'error': 'No chunks provided'}` or the statistics dict. -/
inductive StatsResult where
  | err (msg : Str)
  | stats (total_chunks : Nat) (avg_words_per_chunk : ℚ)
      (min_words max_words total_words : Nat) (method : Str)
  deriving DecidableEq

/-- `TextChunker.get_chunk_stats` (lines 241-259).  On an empty list it
RETURNS the error dict — there is no `raise` anywhere in the function. -/
def get_chunk_stats (chunks : List Chunk) : StatsResult :=
  match chunks with
  | [] => StatsResult.err (("No chunks provided").data)
  | c :: rest =>
    let word_counts := (c :: rest).map Chunk.word_count
    StatsResult.stats word_counts.length
      (Rat.divInt (word_counts.sum : Int) (word_counts.length : Int))
      ((rest.map Chunk.word_count).foldl min c.word_count)
      ((rest.map Chunk.word_count).foldl max c.word_count)
      word_counts.sum
      c.method

/-- C4: `TextChunker.__init__` performs no validation whatsoever: it accepts
`chunk_size = 0` with `overlap = 5`, a negative `chunk_size`, and in general
every parameter pair, always constructing the chunker; no ConfigurationError
(or any exception) exists in the code. -/
theorem init_accepts_invalid_configs :
    (TextChunker.init 0 5 = ⟨0, 5⟩ ∧ TextChunker.init (-3) 7 = ⟨-3, 7⟩)
    ∧ ∀ cs ov : Int, TextChunker.init cs ov = ⟨cs, ov⟩ :=
  ⟨⟨rfl, rfl⟩, fun _ _ => rfl⟩

/-- C5 counterexample: on the empty chunk list `get_chunk_stats` RETURNS the
error dict `{'error': 'No chunks provided'}` as an ordinary value — the
function contains no raise, so no InvalidArgument error is thrown. -/
theorem get_chunk_stats_empty_returns_error_dict :
    get_chunk_stats [] = StatsResult.err (("No chunks provided").data) := by decide

/-- C5 (amended): `get_chunk_stats` yields the in-band error dict exactly on
the empty chunk sequence; on every non-empty sequence it returns statistics.
The condition is reported to the immediate caller through the returned
value, not through an exception. -/
theorem get_chunk_stats_err_iff_empty (chunks : List Chunk) :
    get_chunk_stats chunks = StatsResult.err (("No chunks provided").data) ↔ chunks = [] := by
  cases chunks with
  | nil => exact ⟨fun _ => rfl, fun _ => rfl⟩
  | cons c rest =>
    constructor
    · intro h
      exact absurd h (by simp [get_chunk_stats])
    · intro h
      cases h

lemma pySplitAux_all_ws {s : Str} (h : ∀ c ∈ s, isSpacePy c = true) :
    pySplitAux [] s = [] := by
  induction s with
  | nil => rfl
  | cons c rest ih =>
    have hc : isSpacePy c = true := h c (List.mem_cons_self _ _)
    show pySplitAux [] (c :: rest) = []
    simp only [pySplitAux, hc, if_true, if_pos rfl]
    exact ih (fun d hd => h d (List.mem_cons_of_mem _ hd))

lemma ws_not_term {c : Char} (h : isSpacePy c = true) : isTerm c = false := by
  simp only [isSpacePy, List.mem_cons, List.not_mem_nil, or_false, decide_eq_true_eq] at h
  rcases h with rfl|rfl|rfl|rfl|rfl|rfl|rfl|rfl|rfl|rfl|rfl|rfl|rfl|rfl|rfl|rfl|rfl|rfl|rfl|rfl|rfl|rfl|rfl|rfl|rfl|rfl|rfl|rfl|rfl <;> decide

lemma sentSplitAux_no_term {s : Str} (h : ∀ c ∈ s, isTerm c = false) :
    ∀ cur, sentSplitAux false cur s = [cur.reverse ++ s] := by
  induction s with
  | nil => intro cur; simp [sentSplitAux]
  | cons c rest ih =>
    intro cur
    have hc : isTerm c = false := h c (List.mem_cons_self _ _)
    show sentSplitAux false cur (c :: rest) = [cur.reverse ++ c :: rest]
    rw [sentSplitAux]
    rw [if_neg (by simp), if_neg (by simp [hc])]
    rw [ih (fun d hd => h d (List.mem_cons_of_mem _ hd)) (c :: cur)]
    simp

lemma stripPy_all_ws {s : Str} (h : ∀ c ∈ s, isSpacePy c = true) :
    stripPy s = [] := by
  unfold stripPy
  have : s.dropWhile isSpacePy = [] := List.dropWhile_eq_nil_iff.mpr h
  rw [this]
  rfl

lemma split_into_sentences_all_ws {s : Str} (h : ∀ c ∈ s, isSpacePy c = true) :
    split_into_sentences s = [] := by
  unfold split_into_sentences
  rw [sentSplitAux_no_term (fun c hc => ws_not_term (h c hc)) []]
  have hstrip : stripPy (List.reverse [] ++ s) = [] := stripPy_all_ws (by simpa using h)
  simp only [List.map_cons, List.map_nil, hstrip]
  rfl

/-- C10: on the empty string and on every whitespace-only input, both
chunking methods return the empty chunk list, for every configuration —
valid or not — and neither raises. -/
theorem whitespace_only_input_yields_no_chunks (self : TextChunker) (s : Str)
    (h : ∀ c ∈ s, isSpacePy c = true) :
    self.chunk_by_words s = [] ∧ self.chunk_by_sentences s = [] := by
  constructor
  · unfold TextChunker.chunk_by_words
    rw [show pySplit s = [] from pySplitAux_all_ws h]
    rfl
  · unfold TextChunker.chunk_by_sentences
    rw [split_into_sentences_all_ws h]
    rfl

/-- C10 witness: the theorem applied to a misconfigured chunker
(`chunk_size = -3 < 0`, `overlap = 7 > chunk_size`) on a whitespace-only
input, and to the empty string. -/
theorem whitespace_only_input_yields_no_chunks_witness :
    (∀ c ∈ (("  \t ").data), isSpacePy c = true) ∧
      (TextChunker.init (-3) 7).chunk_by_words (("  \t ").data) = [] ∧
      (TextChunker.init (-3) 7).chunk_by_sentences (("  \t ").data) = [] :=
  ⟨by decide, (whitespace_only_input_yields_no_chunks (TextChunker.init (-3) 7)
    ((("  \t ")).data) (by decide)).1,
   (whitespace_only_input_yields_no_chunks (TextChunker.init (-3) 7)
    ((("  \t ")).data) (by decide)).2⟩

lemma chunkBySentLoop_contig (cs : Int) (sents : List Str) :
    ∀ (rest current : List Str) (count cid : Nat),
      (∃ u : List Str, sents = u ++ current ++ rest) →
      ∀ c ∈ chunkBySentLoop cs rest current count cid,
        ∃ j k : Nat, 0 < k ∧ c.text = joinSp ((sents.drop j).take k) := by
  intro rest
  induction rest with
  | nil =>
    intro current count cid hinv c hc
    by_cases hcur : current = []
    · rw [hcur] at hc
      simp [chunkBySentLoop] at hc
    · simp only [chunkBySentLoop, if_neg hcur, List.mem_singleton] at hc
      subst hc
      rcases hinv with ⟨u, hu⟩
      refine ⟨u.length, current.length, List.length_pos.mpr hcur, ?_⟩
      rw [List.append_nil] at hu
      rw [hu, List.drop_left, List.take_length]
  | cons s rest' ih =>
    intro current count cid hinv c hc
    rw [chunkBySentLoop] at hc
    by_cases hcond : cs < ((count + count_words s : Nat) : Int) ∧ current ≠ []
    · rw [if_pos hcond] at hc
      rcases List.mem_cons.mp hc with rfl | hc'
      · rcases hinv with ⟨u, hu⟩
        refine ⟨u.length, current.length, List.length_pos.mpr hcond.2, ?_⟩
        show joinSp current = joinSp ((sents.drop u.length).take current.length)
        rw [hu, List.append_assoc, List.drop_left, List.take_left]
      · set d : Nat := if 2 ≤ current.length then current.length - 2 else 0 with hd
        have hov :
            (if 2 ≤ current.length then current.drop (current.length - 2) else current) =
              current.drop d := by
          by_cases h2 : 2 ≤ current.length
          · rw [hd, if_pos h2, if_pos h2]
          · rw [hd, if_neg h2, if_neg h2, List.drop_zero]
        rw [hov] at hc'
        refine ih (current.drop d ++ [s]) _ _ ?_ c hc'
        rcases hinv with ⟨u, hu⟩
        refine ⟨u ++ current.take d, ?_⟩
        rw [hu]
        have hsplit : current = current.take d ++ current.drop d :=
          (List.take_append_drop d current).symm
        conv_lhs => rw [hsplit]
        simp only [List.append_assoc, List.singleton_append]
    · rw [if_neg hcond] at hc
      refine ih (current ++ [s]) _ _ ?_ c hc
      rcases hinv with ⟨u, hu⟩
      refine ⟨u, ?_⟩
      rw [hu]
      simp [List.append_assoc]

/-- C6 counterexample: with `chunk_size = 3`, the 5-word sentence
`"One two three four five."` exceeds the ceiling, yet it is NOT emitted
alone: the overlap seeding places it in a chunk together with the previous
sentence `"Hi there."`, and no chunk consists of the oversized sentence
alone. -/
theorem oversized_sentence_not_alone :
    ((3 : Int) < ((count_words (("One two three four five.").data) : Nat) : Int)
      ∧ ("One two three four five.").data ∈
          split_into_sentences (("Hi there. One two three four five.").data))
    ∧ (TextChunker.init 3 0).chunk_by_sentences
        (("Hi there. One two three four five.").data) =
      [⟨0, ("Hi there.").data, 1, 2, ("sentence-based").data⟩,
       ⟨1, ("Hi there. One two three four five.").data, 2, 7, ("sentence-based").data⟩]
    ∧ ∀ c ∈ (TextChunker.init 3 0).chunk_by_sentences
          (("Hi there. One two three four five.").data),
        c.text ≠ ("One two three four five.").data := by decide

/-- C6 (amended): `chunk_by_sentences` never splits inside a sentence —
every emitted chunk's text is the space-join of a non-empty run of whole,
consecutive sentences of `split_into_sentences text`.  An oversized sentence
is kept whole, but is emitted alone only when the accumulator is empty when
it is reached; otherwise the overlap seeding places up to two preceding
sentences in its chunk. -/
theorem chunk_by_sentences_whole_sentences (self : TextChunker) (text : Str) :
    ∀ c ∈ self.chunk_by_sentences text,
      ∃ j k : Nat, 0 < k ∧
        c.text = joinSp (((split_into_sentences text).drop j).take k) := by
  intro c hc
  exact chunkBySentLoop_contig self.chunk_size (split_into_sentences text)
    (split_into_sentences text) [] 0 0 ⟨[], by simp⟩ c hc

/-- C6 witness: the amended theorem applied to a concrete chunk. -/
theorem chunk_by_sentences_whole_sentences_witness :
    (⟨0, ("Hi there.").data, 1, 2, ("sentence-based").data⟩ : SChunk) ∈
        (TextChunker.init 3 0).chunk_by_sentences (("Hi there.").data)
    ∧ ∃ j k : Nat, 0 < k ∧
        (SChunk.text ⟨0, ("Hi there.").data, 1, 2, ("sentence-based").data⟩) =
          joinSp (((split_into_sentences (("Hi there.").data)).drop j).take k) :=
  ⟨by decide, chunk_by_sentences_whole_sentences (TextChunker.init 3 0)
    ((("Hi there.")).data) _ (by decide)⟩

lemma pySlice_eq_drop_take {α : Type} (xs : List α) {a b : Int}
    (ha : 0 ≤ a) (hab : a ≤ b) (hb : b ≤ (xs.length : Int)) :
    pySlice xs a b = (xs.drop a.toNat).take (b.toNat - a.toNat) := by
  unfold pySlice pyIndex
  rw [if_neg (by omega), if_neg (by omega)]
  rw [min_eq_left (by omega : b.toNat ≤ xs.length),
      min_eq_left (by omega : a.toNat ≤ xs.length)]
  rw [List.take_drop]
  have h' : a.toNat + (b.toNat - a.toNat) = b.toNat := by omega
  rw [h']

lemma chunkByWordsLoop_stop (cs ov : Int) (words : List Str)
    (fuel cid : Nat) (start : Int) (h : ¬ start < (words.length : Int)) :
    chunkByWordsLoop cs ov words fuel cid start = [] := by
  cases fuel with
  | zero => rfl
  | succ f => simp only [chunkByWordsLoop, if_neg h]

lemma chunkByWordsLoop_cover (cs ov : Int) (words : List Str)
    (h1 : 0 < cs) (h2 : 0 ≤ ov) (h3 : ov < cs) :
    ∀ (fuel : Nat) (start : Int) (cid : Nat),
      ((words.length : Int) - start).toNat < fuel → 0 ≤ start →
      start < (words.length : Int) →
      (∀ c ∈ chunkByWordsLoop cs ov words fuel cid start,
          0 ≤ c.start_word ∧ c.start_word < c.end_word
            ∧ c.end_word ≤ (words.length : Int)
            ∧ c.text = joinSp ((words.drop c.start_word.toNat).take
                (c.end_word.toNat - c.start_word.toNat)))
      ∧ (∀ k : Nat, start ≤ (k : Int) → (k : Int) < (words.length : Int) →
          ∃ c ∈ chunkByWordsLoop cs ov words fuel cid start,
            c.start_word ≤ (k : Int) ∧ (k : Int) < c.end_word) := by
  intro fuel
  induction fuel with
  | zero =>
    intro start cid hfuel _ _
    omega
  | succ f ih =>
    intro start cid hfuel hs0 hsn
    simp only [chunkByWordsLoop]
    rw [if_pos hsn]
    have hE1 : start < min (start + cs) ((words.length : Int)) := lt_min (by omega) hsn
    have hE2 : min (start + cs) ((words.length : Int)) ≤ ((words.length : Int)) :=
      min_le_right _ _
    generalize hE : min (start + cs) ((words.length : Int)) = E
    rw [hE] at hE1 hE2
    have htext : joinSp (pySlice words start E) =
        joinSp ((words.drop start.toNat).take (E.toNat - start.toNat)) := by
      rw [pySlice_eq_drop_take words hs0 (le_of_lt hE1) hE2]
    by_cases hbr : E - ov ≤ start
    · rw [if_pos hbr]
      have hEn : E = ((words.length : Int)) := by
        rcases le_total (start + cs) ((words.length : Int)) with hle | hle
        · exfalso
          rw [min_eq_left hle] at hE
          omega
        · rw [min_eq_right hle] at hE
          omega
      constructor
      · intro c hc
        rw [List.mem_singleton] at hc
        subst hc
        exact ⟨hs0, hE1, hE2, htext⟩
      · intro k hk1 hk2
        refine ⟨_, List.mem_singleton_self _, hk1, ?_⟩
        show (k : Int) < E
        omega
    · rw [if_neg hbr]
      by_cases hns : E - ov < (words.length : Int)
      · have hih := ih (E - ov) (cid + 1) (by omega) (by omega) hns
        constructor
        · intro c hc
          rcases List.mem_cons.mp hc with rfl | hc'
          · exact ⟨hs0, hE1, hE2, htext⟩
          · exact hih.1 c hc'
        · intro k hk1 hk2
          by_cases hke : (k : Int) < E
          · exact ⟨_, List.mem_cons_self _ _, hk1, hke⟩
          · obtain ⟨c, hc, hck⟩ := hih.2 k (by omega) hk2
            exact ⟨c, List.mem_cons_of_mem _ hc, hck⟩
      · rw [chunkByWordsLoop_stop cs ov words f (cid + 1) (E - ov) hns]
        constructor
        · intro c hc
          rw [List.mem_singleton] at hc
          subst hc
          exact ⟨hs0, hE1, hE2, htext⟩
        · intro k hk1 hk2
          refine ⟨_, List.mem_singleton_self _, hk1, ?_⟩
          show (k : Int) < E
          omega

/-- C8: for every text with a non-empty token list and every valid
configuration (`0 < chunk_size`, `0 ≤ overlap < chunk_size`), each chunk of
`chunk_by_words` is exactly the space-join of the token span
`[start_word, end_word)` of the split text, every span lies inside
`[0, len(words))`, and every token index is covered by some chunk's span —
the spans' union is exactly `[0, len(words))` and no token is dropped. -/
theorem chunk_by_words_cover (self : TextChunker) (text : Str)
    (h1 : 0 < self.chunk_size) (h2 : 0 ≤ self.overlap)
    (h3 : self.overlap < self.chunk_size) (h4 : pySplit text ≠ []) :
    (∀ c ∈ self.chunk_by_words text,
        0 ≤ c.start_word ∧ c.start_word < c.end_word
          ∧ c.end_word ≤ ((pySplit text).length : Int)
          ∧ c.text = joinSp (((pySplit text).drop c.start_word.toNat).take
              (c.end_word.toNat - c.start_word.toNat)))
    ∧ (∀ k : Nat, k < (pySplit text).length →
        ∃ c ∈ self.chunk_by_words text,
          c.start_word ≤ (k : Int) ∧ (k : Int) < c.end_word) := by
  have hn : 0 < (pySplit text).length := List.length_pos.mpr h4
  have h := chunkByWordsLoop_cover self.chunk_size self.overlap (pySplit text) h1 h2 h3
    ((pySplit text).length + 1) 0 0 (by omega) le_rfl (by exact_mod_cast hn)
  refine ⟨h.1, ?_⟩
  intro k hk
  exact h.2 k (by omega) (by exact_mod_cast hk)

/-- C8 witness: the theorem applied to `chunk_size = 2`, `overlap = 1` on
the three-token text `"a b c"`; token index 0 is covered. -/
theorem chunk_by_words_cover_witness :
    ∃ c ∈ (TextChunker.init 2 1).chunk_by_words (("a b c").data),
      c.start_word ≤ (0 : Int) ∧ (0 : Int) < c.end_word :=
  (chunk_by_words_cover (TextChunker.init 2 1) ((("a b c")).data)
    (by decide) (by decide) (by decide) (by decide)).2 0 (by decide)
